import Mathlib

/-
Verification of the per-channel signal generator / measurement state machine
of libsmu (src/signal.cpp), shallowly embedded in Lean 4.

Modelling conventions:
* C `float`/`double` values are modelled as exact rationals (ℚ).  All the
  arithmetic appearing in the code (+, -, *, /, fmod, truncf, floorf, fabs)
  is exact on the inputs the claims are about, so ℚ is a faithful carrier.
  IEEE division never traps; accordingly rational division is total here
  (division by zero produces the junk value 0 rather than an error).
* `cos(norm_phase * 2 * M_PI)` is transcendental, so the sine waveform is
  parametrised by an abstract function `cos2pi : ℚ → ℚ` standing for
  `x ↦ cos (2·π·x)`.  No claim depends on its values.
* Caller-provided source buffers (`float* buf`) are modelled as
  `Option (List ℚ)`: `none` is the null pointer, `some data` a pointer to
  an array holding `data`.  Reading past the end of the array is undefined
  behaviour in C++ and is modelled by `Option`-failure of `get_sample?`.
* The destination buffer pointer `m_dest_buf` advances as samples are
  written; the values written through the current pointer are modelled as
  the list `m_dest_written`.  Invoking the destination callback (a sink
  returning void) is modelled by appending the value to `m_dest_emitted`.
* `size_t` arithmetic: `m_src_buf_len - 1` in C wraps modulo 2^64; the
  model computes the same index modulo `size_t_size = 2^64`.
-/

namespace Smu

/-- Truncation toward zero on rationals, modelling C `truncf`/`trunc`. -/
def truncQ (x : ℚ) : ℚ := if 0 ≤ x then (⌊x⌋ : ℚ) else (⌈x⌉ : ℚ)

/-- C `fmod x y = x - trunc (x / y) * y`; the result carries the sign of `x`
and satisfies `|fmod x y| < y` for `y > 0`. -/
def fmodQ (x y : ℚ) : ℚ := x - truncQ (x / y) * y

/-- Mathematical modulus on ℚ (`x mod y ∈ [0, y)` for `y > 0`), used to state
spec-side formulas that speak of `(phase + 1) mod period`. -/
def qmod (x y : ℚ) : ℚ := x - y * ⌊x / y⌋

/-- Number of values of the C type `size_t` (64-bit). -/
def size_t_size : ℕ := 2 ^ 64

/-- The source discriminator `m_src` (enum Src). -/
inductive SrcKind
  | constant
  | square
  | sawtooth
  | stairstep
  | sine
  | triangle
  | buffer
  | callback
deriving DecidableEq

/-- The destination discriminator `m_dest` (enum Dest). -/
inductive DestKind
  | none
  | buffer
  | callback
deriving DecidableEq

/-- The five phase-driven waveform kinds (the fall-through case labels
SRC_SQUARE/SAWTOOTH/SINE/STAIRSTEP/TRIANGLE of `Signal::get_sample`). -/
def SrcKind.isPeriodic : SrcKind → Bool
  | .constant => false
  | .square => true
  | .sawtooth => true
  | .stairstep => true
  | .sine => true
  | .triangle => true
  | .buffer => false
  | .callback => false

/-- State of `class Signal` (fields of signal.cpp's `Signal`). -/
structure Signal where
  m_src : SrcKind
  m_src_v1 : ℚ
  m_src_v2 : ℚ
  m_src_duty : ℚ
  m_src_period : ℚ
  m_src_phase : ℚ
  m_src_buf : Option (List ℚ)
  m_src_buf_len : ℕ
  m_src_buf_repeat : Bool
  m_src_i : ℕ
  m_src_callback : ℕ → ℚ
  m_dest : DestKind
  m_dest_buf_len : ℕ
  m_dest_written : List ℚ
  m_dest_emitted : List ℚ
  m_latest_measurement : ℚ

/-- `Signal::update_phase`. -/
def Signal.update_phase (s : Signal) (new_period new_phase : ℚ) : Signal :=
  { s with m_src_phase := new_phase, m_src_period := new_period }

/-- `Signal::source_constant`. -/
def Signal.source_constant (s : Signal) (val : ℚ) : Signal :=
  { s with m_src := .constant, m_src_v1 := val }

/-- `Signal::source_square`. -/
def Signal.source_square (s : Signal) (midpoint peak period duty phase : ℚ) : Signal :=
  { ({ s with m_src := .square }).update_phase period phase with
    m_src_v1 := midpoint, m_src_v2 := peak, m_src_duty := duty }

/-- `Signal::source_sawtooth`. -/
def Signal.source_sawtooth (s : Signal) (midpoint peak period phase : ℚ) : Signal :=
  { ({ s with m_src := .sawtooth }).update_phase period phase with
    m_src_v1 := midpoint, m_src_v2 := peak }

/-- `Signal::source_stairstep`. -/
def Signal.source_stairstep (s : Signal) (midpoint peak period phase : ℚ) : Signal :=
  { ({ s with m_src := .stairstep }).update_phase period phase with
    m_src_v1 := midpoint, m_src_v2 := peak }

/-- `Signal::source_sine`. -/
def Signal.source_sine (s : Signal) (midpoint peak period phase : ℚ) : Signal :=
  { ({ s with m_src := .sine }).update_phase period phase with
    m_src_v1 := midpoint, m_src_v2 := peak }

/-- `Signal::source_triangle`. -/
def Signal.source_triangle (s : Signal) (midpoint peak period phase : ℚ) : Signal :=
  { ({ s with m_src := .triangle }).update_phase period phase with
    m_src_v1 := midpoint, m_src_v2 := peak }

/-- `Signal::source_buffer(buf, len, repeat)`: install a borrowed source
buffer and reset the read index. -/
def Signal.source_buffer (s : Signal) (buf : List ℚ) (len : ℕ) (rep : Bool) : Signal :=
  { s with m_src := .buffer, m_src_buf := some buf, m_src_buf_len := len,
           m_src_buf_repeat := rep, m_src_i := 0 }

/-- `Signal::source_callback(callback)`. -/
def Signal.source_callback (s : Signal) (callback : ℕ → ℚ) : Signal :=
  { s with m_src := .callback, m_src_callback := callback, m_src_i := 0 }

/-- `Signal::measure_buffer(buf, len)`: install a fresh destination pointer
(no values written through it yet) with `len` remaining slots. -/
def Signal.measure_buffer (s : Signal) (len : ℕ) : Signal :=
  { s with m_dest := .buffer, m_dest_written := [], m_dest_buf_len := len }

/-- `Signal::measure_callback(callback)`: install a fresh sink (no values
emitted through it yet). -/
def Signal.measure_callback (s : Signal) : Signal :=
  { s with m_dest := .callback, m_dest_emitted := [] }

/-- `Signal::put_sample`. -/
def Signal.put_sample (s : Signal) (val : ℚ) : Signal :=
  let s := { s with m_latest_measurement := val }
  if s.m_dest = .buffer then
    if s.m_dest_buf_len ≠ 0 then
      { s with m_dest_written := s.m_dest_written ++ [val],
               m_dest_buf_len := s.m_dest_buf_len - 1 }
    else s
  else if s.m_dest = .callback then
    { s with m_dest_emitted := s.m_dest_emitted ++ [val] }
  else s

/-- The local `norm_phase` computed at the top of the periodic branch of
`Signal::get_sample`: `phase / period`, bumped by `+1` only when negative. -/
def Signal.norm_phase (s : Signal) : ℚ :=
  let np := s.m_src_phase / s.m_src_period
  if np < 0 then np + 1 else np

/-- The phase advance `m_src_phase = fmod(m_src_phase + 1, m_src_period)`
performed on every periodic `get_sample` call. -/
def Signal.advance (s : Signal) : Signal :=
  { s with m_src_phase := fmodQ (s.m_src_phase + 1) s.m_src_period }

/-- Value returned by the inner waveform switch of `Signal::get_sample`,
as a function of the pre-advance state.  `cos2pi x` stands for
`cos (x * 2 * M_PI)`. -/
def Signal.waveValue (cos2pi : ℚ → ℚ) (s : Signal) : ℚ :=
  let peak_to_peak := s.m_src_v2 - s.m_src_v1
  let phase := s.m_src_phase
  let np := s.norm_phase
  if s.m_src = .square then
    if np < s.m_src_duty then s.m_src_v1 else s.m_src_v2
  else if s.m_src = .sawtooth then
    let int_period := truncQ s.m_src_period
    let int_phase := truncQ phase
    let frac_period := s.m_src_period - int_period
    let frac_phase := phase - int_phase
    let max_int_phase := if frac_period ≤ frac_phase then int_period - 1 else int_period
    s.m_src_v2 - int_phase / max_int_phase * peak_to_peak
  else if s.m_src = .stairstep then
    s.m_src_v2 - (⌊np * 10⌋ : ℚ) * peak_to_peak / 9
  else if s.m_src = .sine then
    s.m_src_v1 + (1 + cos2pi np) * peak_to_peak / 2
  else if s.m_src = .triangle then
    s.m_src_v1 + |1 - np * 2| * peak_to_peak
  else 0

/-- `Signal::get_sample`.  `none` models a failing execution: an access
outside the caller's source array (undefined behaviour in the C++).
The buffer branch mirrors the source: when the read index has passed the
declared length, either restart at 0 (`repeat`) or read the final element
`buf[m_src_buf_len - 1]`, the index computed in `size_t` arithmetic. -/
def Signal.get_sample? (cos2pi : ℚ → ℚ) (s : Signal) : Option (ℚ × Signal) :=
  if s.m_src = .constant then
    some (s.m_src_v1, s)
  else if s.m_src = .buffer then
    match s.m_src_buf with
    | Option.none => Option.none
    | some buf =>
      if s.m_src_buf_len ≤ s.m_src_i then
        if s.m_src_buf_repeat then
          (buf.get? 0).map fun v => (v, { s with m_src_i := 1 })
        else
          (buf.get? ((s.m_src_buf_len + (size_t_size - 1)) % size_t_size)).map fun v => (v, s)
      else
        (buf.get? s.m_src_i).map fun v => (v, { s with m_src_i := s.m_src_i + 1 })
  else if s.m_src = .callback then
    some (s.m_src_callback s.m_src_i, { s with m_src_i := s.m_src_i + 1 })
  else if s.m_src.isPeriodic then
    some (s.waveValue cos2pi, s.advance)
  else
    some (0, s)

/-- `n` consecutive `get_sample` calls, returning the final state
(`none` as soon as one call fails). -/
def Signal.steps? (cos2pi : ℚ → ℚ) : ℕ → Signal → Option Signal
  | 0, s => some s
  | n + 1, s => (s.get_sample? cos2pi).bind fun vs => Signal.steps? cos2pi n vs.2

/-- The value produced by the `(n+1)`-st `get_sample` call (0-indexed). -/
def Signal.sampleAt? (cos2pi : ℚ → ℚ) (n : ℕ) (s : Signal) : Option ℚ :=
  (Signal.steps? cos2pi n s).bind fun t => (t.get_sample? cos2pi).map Prod.fst

/-- `Signal::~Signal() { if (m_src_buf) delete[] m_src_buf; }`: the
destructor frees the installed source buffer exactly when the pointer is
non-null.  `true` means the caller's storage is deallocated. -/
def Signal.dtor_frees_src_buf (s : Signal) : Bool := s.m_src_buf.isSome

/-- Spec-side definition (from the spec's words, for comparison with the
code): `norm_phase = ((phase mod period) / period)`, wrapped into `[0,1)`,
with the mathematical modulus. -/
def spec_norm_phase (phase period : ℚ) : ℚ := qmod phase period / period

/-- Spec-side definition (from the words of claim C3, for comparison with
the code): the sawtooth output `peak − (⌊phase⌋ / max_int_phase)·(peak−midpoint)`
with `⌊·⌋`/`frac` the floor and fractional part. -/
def spec_sawtooth_value (midpoint peak period phase : ℚ) : ℚ :=
  let int_period : ℚ := (⌊period⌋ : ℚ)
  let int_phase : ℚ := (⌊phase⌋ : ℚ)
  let frac_period := period - int_period
  let frac_phase := phase - int_phase
  let max_int_phase := if frac_period ≤ frac_phase then int_period - 1 else int_period
  peak - int_phase / max_int_phase * (peak - midpoint)

/-- A concrete idle `Signal` used as the base state of concrete test
configurations: constant source, no buffers installed, no destination. -/
def sig0 : Signal :=
  { m_src := .constant, m_src_v1 := 0, m_src_v2 := 0, m_src_duty := 0,
    m_src_period := 0, m_src_phase := 0, m_src_buf := Option.none,
    m_src_buf_len := 0, m_src_buf_repeat := false, m_src_i := 0,
    m_src_callback := fun _ => 0, m_dest := .none, m_dest_buf_len := 0,
    m_dest_written := [], m_dest_emitted := [], m_latest_measurement := 0 }

/-- A fixed stand-in for `x ↦ cos (2 π x)` used in concrete instances;
no claim depends on the values of the cosine. -/
def czero : ℚ → ℚ := fun _ => 0

/-- The stored phase after `n` periodic `get_sample` calls starting from
phase `x ∈ [0, p)`: the fractional part of `x` is preserved and the integer
part advances by `n` modulo the (integral) period `p`. -/
def phaseOrbit (x : ℚ) (p n : ℕ) : ℚ :=
  Int.fract x + (((⌊x⌋.toNat + n) % p : ℕ) : ℚ)

/-- The value of the buffer-source read index `m_src_i` after `n`
`get_sample` calls starting from a freshly configured buffer source of
declared length `len ≥ 1`: with `repeat`, the index cycles (it is reset to
0 and immediately bumped to 1 on the call that wraps); without `repeat`,
it advances to `len` and then stays. -/
def bufIndexAfter (rep : Bool) (len n : ℕ) : ℕ :=
  if rep then (if n = 0 then 0 else (n - 1) % len + 1)
  else if n ≤ len then n else len

/-- Concrete square configuration `source_square(0, 1, 10, 7/10, 15)` whose
starting phase 15 exceeds the period 10. -/
def squareSig15 : Signal := sig0.source_square 0 1 10 (7 / 10) 15

/-- Concrete square configuration `source_square(2, 5, 10, 1/2, 3)`. -/
def squareSigIn : Signal := sig0.source_square 2 5 10 (1 / 2) 3

/-- Concrete square configuration `source_square(0, 1, 10, 1/2, 0)`. -/
def squareSig0 : Signal := sig0.source_square 0 1 10 (1 / 2) 0

/-- Concrete sawtooth configuration `source_sawtooth(0, 1, 10, -5/2)` with a
negative starting phase. -/
def sawSigNeg : Signal := sig0.source_sawtooth 0 1 10 (-(5 / 2))

/-- Concrete sawtooth configuration `source_sawtooth(0, 1, 10, 3)` with a
nonnegative starting phase. -/
def sawSigPos : Signal := sig0.source_sawtooth 0 1 10 3

/-- Concrete triangle configuration `source_triangle(0, 1, 1, ph)`: with
period 1, the pre-advance `norm_phase` of the first call is `ph` itself. -/
def triSig (ph : ℚ) : Signal := sig0.source_triangle 0 1 1 ph

/-- Concrete triangle configuration `source_triangle(0, 1, 10, 3)`. -/
def triSig10 : Signal := sig0.source_triangle 0 1 10 3

/-- Concrete buffer configuration `source_buffer(buf, 0, false)` with a
zero-length source array. -/
def emptyBufSig : Signal := sig0.source_buffer [] 0 false

/-- Concrete buffer configuration `source_buffer([1,2,3], 3, false)`. -/
def bufSig123 : Signal := sig0.source_buffer [1, 2, 3] 3 false

/-- Concrete buffer configuration `source_buffer([5], 1, true)`. -/
def bufSigOne : Signal := sig0.source_buffer [5] 1 true

lemma truncQ_of_nonneg {x : ℚ} (h : 0 ≤ x) : truncQ x = (⌊x⌋ : ℚ) := by
  simp [truncQ, h]

lemma fmodQ_eq_of_nonneg {x y : ℚ} (hx : 0 ≤ x) (hy : 0 < y) :
    fmodQ x y = y * Int.fract (x / y) := by
  unfold fmodQ
  rw [truncQ_of_nonneg (div_nonneg hx hy.le), Int.fract]
  field_simp
  ring

lemma fmodQ_mem_Ico {x y : ℚ} (hx : 0 ≤ x) (hy : 0 < y) :
    0 ≤ fmodQ x y ∧ fmodQ x y < y := by
  rw [fmodQ_eq_of_nonneg hx hy]
  refine ⟨mul_nonneg hy.le (Int.fract_nonneg _), ?_⟩
  have h1 : Int.fract (x / y) < 1 := Int.fract_lt_one _
  nlinarith

lemma fmodQ_neg_eq {x y : ℚ} (hx : x < 0) (hy : 0 < y) :
    fmodQ x y = -(y * Int.fract (-x / y)) := by
  unfold fmodQ truncQ
  have hq : ¬ (0 ≤ x / y) := not_le.mpr (div_neg_of_neg_of_pos hx hy)
  rw [if_neg hq]
  have hceil : (⌈x / y⌉ : ℚ) = -(⌊-(x / y)⌋ : ℚ) := by
    rw [show (-(x / y)) = -(x / y) from rfl, Int.floor_neg]
    push_cast
    ring
  rw [hceil, Int.fract, neg_div]
  field_simp
  ring

lemma abs_fmodQ_lt {x y : ℚ} (hy : 0 < y) : |fmodQ x y| < y := by
  rcases le_or_lt 0 x with hx | hx
  · have h := fmodQ_mem_Ico hx hy
    rw [abs_of_nonneg h.1]
    exact h.2
  · rw [fmodQ_neg_eq hx hy, abs_neg]
    have h0 : 0 ≤ y * Int.fract (-x / y) := mul_nonneg hy.le (Int.fract_nonneg _)
    rw [abs_of_nonneg h0]
    have h1 : Int.fract (-x / y) < 1 := Int.fract_lt_one _
    nlinarith

lemma fmodQ_of_Ico {x y : ℚ} (h0 : 0 ≤ x) (h1 : x < y) : fmodQ x y = x := by
  have hy : 0 < y := lt_of_le_of_lt h0 h1
  unfold fmodQ
  rw [truncQ_of_nonneg (div_nonneg h0 hy.le)]
  have hfl : ⌊x / y⌋ = 0 :=
    Int.floor_eq_zero_iff.mpr ⟨div_nonneg h0 hy.le, (div_lt_one hy).mpr h1⟩
  rw [hfl]
  push_cast
  ring

lemma fmodQ_step {x p : ℚ} (hp : 1 ≤ p) (h0 : 0 ≤ x) (h1 : x < p) :
    fmodQ (x + 1) p = if x + 1 < p then x + 1 else x + 1 - p := by
  have hp0 : 0 < p := by linarith
  split_ifs with h
  · exact fmodQ_of_Ico (by linarith) h
  · unfold fmodQ
    rw [truncQ_of_nonneg (div_nonneg (by linarith) hp0.le)]
    have hfl : ⌊(x + 1) / p⌋ = 1 := by
      rw [Int.floor_eq_iff]
      constructor
      · rw [le_div_iff₀ hp0]
        push_cast
        linarith
      · rw [div_lt_iff₀ hp0]
        push_cast
        linarith
    rw [hfl]
    push_cast
    ring

lemma get_sample?_of_periodic (cos2pi : ℚ → ℚ) (s : Signal)
    (h : s.m_src.isPeriodic = true) :
    s.get_sample? cos2pi = some (s.waveValue cos2pi, s.advance) := by
  cases hs : s.m_src <;>
    simp_all [Signal.get_sample?, SrcKind.isPeriodic]

lemma waveValue_square (cos2pi : ℚ → ℚ) (s : Signal) (h : s.m_src = .square) :
    s.waveValue cos2pi = if s.norm_phase < s.m_src_duty then s.m_src_v1 else s.m_src_v2 := by
  simp [Signal.waveValue, h]

lemma waveValue_sawtooth (cos2pi : ℚ → ℚ) (s : Signal) (h : s.m_src = .sawtooth) :
    s.waveValue cos2pi =
      (let int_period := truncQ s.m_src_period
       let int_phase := truncQ s.m_src_phase
       let frac_period := s.m_src_period - int_period
       let frac_phase := s.m_src_phase - int_phase
       let max_int_phase := if frac_period ≤ frac_phase then int_period - 1 else int_period
       s.m_src_v2 - int_phase / max_int_phase * (s.m_src_v2 - s.m_src_v1)) := by
  simp [Signal.waveValue, h]

lemma waveValue_triangle (cos2pi : ℚ → ℚ) (s : Signal) (h : s.m_src = .triangle) :
    s.waveValue cos2pi = s.m_src_v1 + |1 - s.norm_phase * 2| * (s.m_src_v2 - s.m_src_v1) := by
  simp [Signal.waveValue, h]

lemma steps?_succ_back (cos2pi : ℚ → ℚ) (n : ℕ) :
    ∀ s : Signal, Signal.steps? cos2pi (n + 1) s =
      (Signal.steps? cos2pi n s).bind fun t => (t.get_sample? cos2pi).map Prod.snd := by
  induction n with
  | zero =>
      intro s
      cases h : s.get_sample? cos2pi <;> simp [Signal.steps?, h]
  | succ n ih =>
      intro s
      cases h : s.get_sample? cos2pi with
      | none => simp [Signal.steps?, h]
      | some vs =>
          have h1 : Signal.steps? cos2pi (n + 1 + 1) s =
              Signal.steps? cos2pi (n + 1) vs.2 := by
            simp [Signal.steps?, h]
          have h2 : Signal.steps? cos2pi (n + 1) s = Signal.steps? cos2pi n vs.2 := by
            simp [Signal.steps?, h]
          rw [h1, ih, h2]

lemma fmodQ_orbit_step (p : ℕ) (hp : 1 ≤ p) (f : ℚ) (hf0 : 0 ≤ f) (hf1 : f < 1)
    (m : ℕ) (hm : m < p) :
    fmodQ (f + (m : ℚ) + 1) (p : ℚ) = f + (((m + 1) % p : ℕ) : ℚ) := by
  have hp1 : (1 : ℚ) ≤ (p : ℚ) := by exact_mod_cast hp
  have hx0 : 0 ≤ f + (m : ℚ) := by positivity
  have hx1 : f + (m : ℚ) < (p : ℚ) := by
    have hmq : (m : ℚ) ≤ (p : ℚ) - 1 := by
      have : (m : ℚ) + 1 ≤ (p : ℚ) := by exact_mod_cast hm
      linarith
    linarith
  rw [fmodQ_step hp1 hx0 hx1]
  rcases Nat.lt_or_ge (m + 1) p with hcase | hcase
  · rw [if_pos, Nat.mod_eq_of_lt hcase]
    · push_cast
      ring
    · have : (m : ℚ) + 1 + 1 ≤ (p : ℚ) := by exact_mod_cast hcase
      linarith
  · have hmp : m + 1 = p := by omega
    rw [if_neg, hmp, Nat.mod_self]
    · push_cast [← hmp]
      ring
    · have : (p : ℚ) ≤ f + (m : ℚ) + 1 := by
        have : ((m : ℚ) + 1) = (p : ℚ) := by exact_mod_cast congrArg (Nat.cast : ℕ → ℚ) hmp
        linarith
      linarith

lemma steps?_periodic (cos2pi : ℚ → ℚ) (s : Signal) (p : ℕ)
    (hk : s.m_src.isPeriodic = true) (hp : 1 ≤ p) (hper : s.m_src_period = (p : ℚ))
    (h0 : 0 ≤ s.m_src_phase) (h1 : s.m_src_phase < (p : ℚ)) (n : ℕ) :
    Signal.steps? cos2pi n s =
      some { s with m_src_phase := phaseOrbit s.m_src_phase p n } := by
  have hfl0 : 0 ≤ ⌊s.m_src_phase⌋ := Int.floor_nonneg.mpr h0
  have hfltoNat : ((⌊s.m_src_phase⌋.toNat : ℕ) : ℚ) = (⌊s.m_src_phase⌋ : ℚ) := by
    exact_mod_cast congrArg (Int.cast : ℤ → ℚ) (Int.toNat_of_nonneg hfl0)
  have hfla : ⌊s.m_src_phase⌋.toNat < p := by
    have : ⌊s.m_src_phase⌋ < (p : ℤ) := Int.floor_lt.mpr (by exact_mod_cast h1)
    omega
  induction n with
  | zero =>
      have hmod : (⌊s.m_src_phase⌋.toNat + 0) % p = ⌊s.m_src_phase⌋.toNat := by
        rw [Nat.add_zero]
        exact Nat.mod_eq_of_lt hfla
      unfold phaseOrbit
      rw [hmod]
      have hphase : Int.fract s.m_src_phase + ((⌊s.m_src_phase⌋.toNat : ℕ) : ℚ) =
          s.m_src_phase := by
        rw [hfltoNat, Int.fract]
        ring
      rw [hphase]
      rfl
  | succ n ih =>
      rw [steps?_succ_back, ih]
      have hkt : ({ s with m_src_phase := phaseOrbit s.m_src_phase p n } :
          Signal).m_src.isPeriodic = true := hk
      rw [show ∀ (t : Signal) (g : Signal → Option Signal),
            (some t).bind g = g t from fun _ _ => rfl]
      rw [get_sample?_of_periodic _ _ hkt]
      have hstep : fmodQ (phaseOrbit s.m_src_phase p n + 1) s.m_src_period =
          phaseOrbit s.m_src_phase p (n + 1) := by
        unfold phaseOrbit
        rw [hper]
        rw [fmodQ_orbit_step p hp _ (Int.fract_nonneg _) (Int.fract_lt_one _)
          ((⌊s.m_src_phase⌋.toNat + n) % p) (Nat.mod_lt _ (by omega))]
        rw [Nat.mod_add_mod, Nat.add_assoc]
      exact congrArg (fun q => some { s with m_src_phase := q }) hstep

lemma norm_phase_of_neg (s : Signal) (h : s.m_src_phase / s.m_src_period < 0) :
    s.norm_phase = s.m_src_phase / s.m_src_period + 1 := by
  simp [Signal.norm_phase, h]

lemma norm_phase_of_nonneg (s : Signal) (h : 0 ≤ s.m_src_phase / s.m_src_period) :
    s.norm_phase = s.m_src_phase / s.m_src_period := by
  simp [Signal.norm_phase, not_lt.mpr h]

lemma neg_one_lt_div_of_bounds {x y : ℚ} (hp : 0 < y) (hlo : -y < x) : -1 < x / y := by
  have h1 : -y / y < x / y := (div_lt_div_iff_of_pos_right hp).mpr hlo
  rwa [neg_div, div_self hp.ne'] at h1

lemma norm_phase_mem_Ico (s : Signal) (hp : 0 < s.m_src_period)
    (hlo : -s.m_src_period < s.m_src_phase) (hhi : s.m_src_phase < s.m_src_period) :
    0 ≤ s.norm_phase ∧ s.norm_phase < 1 := by
  have hhi' : s.m_src_phase / s.m_src_period < 1 := (div_lt_one hp).mpr hhi
  have hlo' : -1 < s.m_src_phase / s.m_src_period := neg_one_lt_div_of_bounds hp hlo
  by_cases h : s.m_src_phase / s.m_src_period < 0
  · rw [norm_phase_of_neg s h]
    constructor <;> linarith
  · rw [norm_phase_of_nonneg s (not_lt.mp h)]
    exact ⟨not_lt.mp h, hhi'⟩

lemma norm_phase_eq_spec (s : Signal) (hp : 0 < s.m_src_period)
    (hlo : -s.m_src_period < s.m_src_phase) (hhi : s.m_src_phase < s.m_src_period) :
    s.norm_phase = spec_norm_phase s.m_src_phase s.m_src_period := by
  have hhi' : s.m_src_phase / s.m_src_period < 1 := (div_lt_one hp).mpr hhi
  have hlo' : -1 < s.m_src_phase / s.m_src_period := neg_one_lt_div_of_bounds hp hlo
  unfold spec_norm_phase qmod
  by_cases h : s.m_src_phase / s.m_src_period < 0
  · rw [norm_phase_of_neg s h]
    have hfl : ⌊s.m_src_phase / s.m_src_period⌋ = -1 := by
      rw [Int.floor_eq_iff]
      push_cast
      exact ⟨by linarith, by linarith⟩
    rw [hfl]
    push_cast
    field_simp
  · rw [norm_phase_of_nonneg s (not_lt.mp h)]
    have hfl : ⌊s.m_src_phase / s.m_src_period⌋ = 0 :=
      Int.floor_eq_zero_iff.mpr ⟨not_lt.mp h, hhi'⟩
    rw [hfl]
    push_cast
    rw [mul_zero, sub_zero]

/-- C10 (confirmed): for a periodic source with positive period, `get_sample`
succeeds, the post-advance stored phase `fmod(phase+1, period)` has magnitude
strictly below the period; whenever the pre-advance phase lies in
`(-period, period)` the `norm_phase` used by the waveform formulas lies in
`[0, 1)`; a pre-advance phase `≥ period` yields `norm_phase ≥ 1`: only
negative `phase/period` quotients are wrapped (bumped by 1) before use. -/
theorem C10_phase_invariants (cos2pi : ℚ → ℚ) (s : Signal)
    (hk : s.m_src.isPeriodic = true) (hp : 0 < s.m_src_period) :
    (s.get_sample? cos2pi = some (s.waveValue cos2pi, s.advance)
      ∧ |s.advance.m_src_phase| < s.m_src_period)
    ∧ (-s.m_src_period < s.m_src_phase → s.m_src_phase < s.m_src_period →
        0 ≤ s.norm_phase ∧ s.norm_phase < 1)
    ∧ (s.m_src_period ≤ s.m_src_phase → 1 ≤ s.norm_phase)
    ∧ (s.m_src_phase / s.m_src_period < 0 →
        s.norm_phase = s.m_src_phase / s.m_src_period + 1)
    ∧ (0 ≤ s.m_src_phase / s.m_src_period →
        s.norm_phase = s.m_src_phase / s.m_src_period) := by
  refine ⟨⟨get_sample?_of_periodic cos2pi s hk, ?_⟩,
    fun hlo hhi => norm_phase_mem_Ico s hp hlo hhi, ?_,
    norm_phase_of_neg s, norm_phase_of_nonneg s⟩
  · show |fmodQ (s.m_src_phase + 1) s.m_src_period| < s.m_src_period
    exact abs_fmodQ_lt hp
  · intro h
    have h1 : (1 : ℚ) ≤ s.m_src_phase / s.m_src_period := (one_le_div hp).mpr h
    rw [norm_phase_of_nonneg s (by linarith)]
    exact h1

/-- Witness for C10 at the concrete configuration
`source_square(2, 5, 10, 1/2, 3)`. -/
theorem C10_phase_invariants_witness :
    (squareSigIn.m_src.isPeriodic = true ∧ (0 : ℚ) < squareSigIn.m_src_period)
    ∧ (squareSigIn.get_sample? czero = some (squareSigIn.waveValue czero, squareSigIn.advance)
      ∧ |squareSigIn.advance.m_src_phase| < squareSigIn.m_src_period) :=
  ⟨⟨rfl, by norm_num [squareSigIn, sig0, Signal.source_square, Signal.update_phase]⟩,
    (C10_phase_invariants czero squareSigIn rfl
      (by norm_num [squareSigIn, sig0, Signal.source_square, Signal.update_phase])).1⟩

lemma fmodQ_eq_qmod {x y : ℚ} (hx : 0 ≤ x) (hy : 0 < y) : fmodQ x y = qmod x y := by
  unfold fmodQ qmod
  rw [truncQ_of_nonneg (div_nonneg hx hy.le)]
  ring

lemma sampleAt?_periodic (cos2pi : ℚ → ℚ) (s : Signal) (p : ℕ)
    (hk : s.m_src.isPeriodic = true) (hp : 1 ≤ p) (hper : s.m_src_period = (p : ℚ))
    (h0 : 0 ≤ s.m_src_phase) (h1 : s.m_src_phase < (p : ℚ)) (n : ℕ) :
    Signal.sampleAt? cos2pi n s =
      some (Signal.waveValue cos2pi { s with m_src_phase := phaseOrbit s.m_src_phase p n }) := by
  unfold Signal.sampleAt?
  rw [steps?_periodic cos2pi s p hk hp hper h0 h1 n]
  rw [show ∀ (t : Signal) (g : Signal → Option ℚ), (some t).bind g = g t from fun _ _ => rfl]
  rw [get_sample?_of_periodic _ _ (by exact hk)]
  rfl

/-- C1 (corrected): for a periodic source with integral period `p ≥ 1` and a
starting phase in `[0, p)`, every `get_sample` call advances the stored phase
to `(phase + 1) mod period` and both the state stream and the value stream
repeat with period `p` calls, independent of how many calls were made
before.  (The original claim's "any starting phase" fails: a configured
phase outside `[0, period)` is not wrapped before first use, see the
counterexample.) -/
theorem C1_phase_periodicity (cos2pi : ℚ → ℚ) (s : Signal) (p : ℕ)
    (hk : s.m_src.isPeriodic = true) (hp : 1 ≤ p) (hper : s.m_src_period = (p : ℚ))
    (h0 : 0 ≤ s.m_src_phase) (h1 : s.m_src_phase < (p : ℚ)) :
    (s.get_sample? cos2pi = some (s.waveValue cos2pi, s.advance)
      ∧ s.advance.m_src_phase = qmod (s.m_src_phase + 1) (p : ℚ))
    ∧ (∀ n, Signal.steps? cos2pi (n + p) s = Signal.steps? cos2pi n s)
    ∧ (∀ n, Signal.sampleAt? cos2pi (n + p) s = Signal.sampleAt? cos2pi n s) := by
  have hsteps : ∀ n, Signal.steps? cos2pi (n + p) s = Signal.steps? cos2pi n s := by
    intro n
    rw [steps?_periodic cos2pi s p hk hp hper h0 h1 (n + p),
        steps?_periodic cos2pi s p hk hp hper h0 h1 n]
    have horbit : phaseOrbit s.m_src_phase p (n + p) = phaseOrbit s.m_src_phase p n := by
      unfold phaseOrbit
      rw [← Nat.add_assoc, Nat.add_mod_right]
    rw [horbit]
  refine ⟨⟨get_sample?_of_periodic cos2pi s hk, ?_⟩, hsteps, fun n => ?_⟩
  · show fmodQ (s.m_src_phase + 1) s.m_src_period = qmod (s.m_src_phase + 1) (p : ℚ)
    have hpq : (0 : ℚ) < (p : ℚ) := by exact_mod_cast hp
    rw [hper]
    exact fmodQ_eq_qmod (by linarith) hpq
  · unfold Signal.sampleAt?
    rw [hsteps n]

/-- Witness for C1 at `source_square(0, 1, 10, 1/2, 0)` and call index 3. -/
theorem C1_phase_periodicity_witness :
    (squareSig0.m_src.isPeriodic = true ∧ (0 : ℚ) ≤ squareSig0.m_src_phase
      ∧ squareSig0.m_src_phase < ((10 : ℕ) : ℚ))
    ∧ Signal.sampleAt? czero (3 + 10) squareSig0 = Signal.sampleAt? czero 3 squareSig0 :=
  ⟨⟨rfl, by norm_num [squareSig0, sig0, Signal.source_square, Signal.update_phase],
     by norm_num [squareSig0, sig0, Signal.source_square, Signal.update_phase]⟩,
   (C1_phase_periodicity czero squareSig0 10 rfl (by norm_num)
     (by norm_num [squareSig0, sig0, Signal.source_square, Signal.update_phase])
     (by norm_num [squareSig0, sig0, Signal.source_square, Signal.update_phase])
     (by norm_num [squareSig0, sig0, Signal.source_square, Signal.update_phase])).2.2 3⟩

/-- Counterexample to C1 as stated ("any starting phase"): for
`source_square(0, 1, 10, 7/10, 15)` — integral period 10, starting phase
15 — the 1st call returns `peak = 1` (its unwrapped `norm_phase` is `3/2`)
but the 11th call returns `midpoint = 0`, so the value sequence is not
periodic with period 10 from the first call on. -/
theorem C1_starting_phase_counterexample :
    Signal.sampleAt? czero 10 squareSig15 ≠ Signal.sampleAt? czero 0 squareSig15 := by
  have e0 : Signal.sampleAt? czero 0 squareSig15 = some 1 := by
    show (squareSig15.get_sample? czero).map Prod.fst = some 1
    rw [get_sample?_of_periodic czero squareSig15 rfl]
    have hv : squareSig15.waveValue czero = 1 := by
      rw [waveValue_square czero squareSig15 rfl]
      rw [if_neg]
      · norm_num [squareSig15, sig0, Signal.source_square, Signal.update_phase]
      · norm_num [Signal.norm_phase, squareSig15, sig0, Signal.source_square,
          Signal.update_phase]
    rw [Option.map_some', hv]
  have hadv : squareSig15.advance = { squareSig15 with m_src_phase := 6 } := by
    have hval : fmodQ (squareSig15.m_src_phase + 1) squareSig15.m_src_period = 6 := by
      norm_num [squareSig15, sig0, Signal.source_square, Signal.update_phase,
        fmodQ, truncQ]
    exact congrArg (fun q => { squareSig15 with m_src_phase := q }) hval
  have e10 : Signal.sampleAt? czero 10 squareSig15 = some 0 := by
    have hsplit : Signal.steps? czero 10 squareSig15 =
        Signal.steps? czero 9 squareSig15.advance := by
      rw [show (10 : ℕ) = 9 + 1 from rfl]
      show (squareSig15.get_sample? czero).bind (fun vs => Signal.steps? czero 9 vs.2) = _
      rw [get_sample?_of_periodic czero squareSig15 rfl]
      rfl
    unfold Signal.sampleAt?
    rw [hsplit, hadv]
    rw [steps?_periodic czero { squareSig15 with m_src_phase := (6 : ℚ) } 10 (by rfl)
      (by norm_num)
      (by norm_num [squareSig15, sig0, Signal.source_square, Signal.update_phase])
      (by norm_num) (by norm_num)]
    rw [show ∀ (t : Signal) (g : Signal → Option ℚ), (some t).bind g = g t from
      fun _ _ => rfl]
    rw [get_sample?_of_periodic czero _ (by rfl)]
    have horb : phaseOrbit (6 : ℚ) 10 9 = 5 := by
      have h6 : ⌊(6 : ℚ)⌋ = 6 := by norm_num
      have hnat : ((6 : ℤ).toNat + 9) % 10 = 5 := by decide
      unfold phaseOrbit
      rw [h6, hnat, Int.fract, h6]
      push_cast
      norm_num
    have hv : Signal.waveValue czero
        { squareSig15 with m_src_phase := phaseOrbit (6 : ℚ) 10 9 } = 0 := by
      rw [horb, waveValue_square czero _ rfl]
      rw [if_pos]
      · norm_num [squareSig15, sig0, Signal.source_square, Signal.update_phase]
      · norm_num [Signal.norm_phase, squareSig15, sig0, Signal.source_square,
          Signal.update_phase]
    rw [Option.map_some', hv]
  rw [e0, e10]
  intro h
  have h1 : (0 : ℚ) = 1 := Option.some.inj h
  norm_num at h1

lemma waveValue_square_of_nonneg (cos2pi : ℚ → ℚ) (s : Signal) (hs : s.m_src = .square)
    (hd : 0 < s.m_src_period) (h0 : 0 ≤ s.m_src_phase) :
    s.waveValue cos2pi =
      if s.m_src_phase / s.m_src_period < s.m_src_duty then s.m_src_v1 else s.m_src_v2 := by
  rw [waveValue_square cos2pi s hs, norm_phase_of_nonneg s (div_nonneg h0 hd.le)]

lemma phaseOrbit_zero (p n : ℕ) : phaseOrbit 0 p n = ((n % p : ℕ) : ℚ) := by
  simp [phaseOrbit, Int.fract_zero, Int.floor_zero, Int.toNat_zero]

/-- C2 (corrected): the square formula with the spec's wrapped
`norm_phase = (phase mod period)/period ∈ [0, 1)` matches `get_sample`
whenever the pre-advance phase lies in `(-period, period)` — which holds
for every reachable phase except a configured starting phase of magnitude
`≥ period` (see the counterexample).  The concrete duty law holds
unconditionally: after `source_square(midpoint, peak, 10, 1/2, 0)` the
`n`-th sample is `midpoint` when `n mod 10 < 5` and `peak` otherwise,
repeating with period 10. -/
theorem C2_square_duty (cos2pi : ℚ → ℚ) :
    (∀ s : Signal, s.m_src = .square → 0 < s.m_src_period →
      -s.m_src_period < s.m_src_phase → s.m_src_phase < s.m_src_period →
      (s.get_sample? cos2pi).map Prod.fst =
        some (if spec_norm_phase s.m_src_phase s.m_src_period < s.m_src_duty
              then s.m_src_v1 else s.m_src_v2))
    ∧ (∀ (s : Signal) (midpoint peak : ℚ) (n : ℕ),
        Signal.sampleAt? cos2pi n (s.source_square midpoint peak 10 (1 / 2) 0) =
          some (if n % 10 < 5 then midpoint else peak)) := by
  constructor
  · intro s hs hp hlo hhi
    have hksq : s.m_src.isPeriodic = true := by rw [hs]; rfl
    rw [get_sample?_of_periodic cos2pi s hksq, Option.map_some']
    rw [waveValue_square cos2pi s hs, norm_phase_eq_spec s hp hlo hhi]
  · intro s midpoint peak n
    rw [sampleAt?_periodic cos2pi (s.source_square midpoint peak 10 (1 / 2) 0) 10 (by rfl)
      (by norm_num) (by norm_num [Signal.source_square, Signal.update_phase])
      (by norm_num [Signal.source_square, Signal.update_phase])
      (by norm_num [Signal.source_square, Signal.update_phase]) n]
    have hzero : (s.source_square midpoint peak 10 (1 / 2) 0).m_src_phase = 0 := rfl
    rw [hzero, phaseOrbit_zero]
    rw [waveValue_square_of_nonneg cos2pi _ (by rfl)
      (by norm_num [Signal.source_square, Signal.update_phase]) (by positivity)]
    have hiff : ((({ s.source_square midpoint peak 10 (1 / 2) 0 with
          m_src_phase := ((n % 10 : ℕ) : ℚ) } : Signal).m_src_phase /
        ({ s.source_square midpoint peak 10 (1 / 2) 0 with
          m_src_phase := ((n % 10 : ℕ) : ℚ) } : Signal).m_src_period <
        ({ s.source_square midpoint peak 10 (1 / 2) 0 with
          m_src_phase := ((n % 10 : ℕ) : ℚ) } : Signal).m_src_duty)) ↔ n % 10 < 5 := by
      show (((n % 10 : ℕ) : ℚ) / 10 < 1 / 2) ↔ n % 10 < 5
      rw [div_lt_iff₀ (by norm_num : (0 : ℚ) < 10)]
      rw [show (1 : ℚ) / 2 * 10 = ((5 : ℕ) : ℚ) by norm_num]
      exact Nat.cast_lt
    rw [if_congr hiff rfl rfl]
    rfl

/-- Witness for C2: the wrapped-norm formula at `source_square(2, 5, 10, 1/2, 3)`
(phase 3 within `(-10, 10)`), and the duty law at call index 7. -/
theorem C2_square_duty_witness :
    (squareSigIn.m_src = .square ∧ (0 : ℚ) < squareSigIn.m_src_period
      ∧ -squareSigIn.m_src_period < squareSigIn.m_src_phase
      ∧ squareSigIn.m_src_phase < squareSigIn.m_src_period)
    ∧ (squareSigIn.get_sample? czero).map Prod.fst =
        some (if spec_norm_phase squareSigIn.m_src_phase squareSigIn.m_src_period <
                squareSigIn.m_src_duty then squareSigIn.m_src_v1 else squareSigIn.m_src_v2)
    ∧ Signal.sampleAt? czero 7 (sig0.source_square 0 1 10 (1 / 2) 0) =
        some (if 7 % 10 < 5 then (0 : ℚ) else 1) :=
  ⟨⟨rfl,
    by norm_num [squareSigIn, sig0, Signal.source_square, Signal.update_phase],
    by norm_num [squareSigIn, sig0, Signal.source_square, Signal.update_phase],
    by norm_num [squareSigIn, sig0, Signal.source_square, Signal.update_phase]⟩,
   (C2_square_duty czero).1 squareSigIn rfl
     (by norm_num [squareSigIn, sig0, Signal.source_square, Signal.update_phase])
     (by norm_num [squareSigIn, sig0, Signal.source_square, Signal.update_phase])
     (by norm_num [squareSigIn, sig0, Signal.source_square, Signal.update_phase]),
   (C2_square_duty czero).2 sig0 0 1 7⟩

/-- Counterexample to C2 as stated: for `source_square(0, 1, 10, 7/10, 15)`
the first `get_sample` returns `peak = 1` (the code's unwrapped `norm_phase`
is `3/2 ≥ duty`), while the claim's wrapped
`norm_phase = (15 mod 10)/10 = 1/2 < duty = 7/10` predicts `midpoint = 0`. -/
theorem C2_square_counterexample :
    (squareSig15.get_sample? czero).map Prod.fst = some 1
    ∧ (if spec_norm_phase 15 10 < 7 / 10 then (0 : ℚ) else 1) = 0
    ∧ (1 : ℚ) ≠ 0 := by
  refine ⟨?_, ?_, by norm_num⟩
  · rw [get_sample?_of_periodic czero squareSig15 rfl, Option.map_some']
    rw [waveValue_square czero squareSig15 rfl]
    rw [if_neg]
    · norm_num [squareSig15, sig0, Signal.source_square, Signal.update_phase]
    · norm_num [Signal.norm_phase, squareSig15, sig0, Signal.source_square,
        Signal.update_phase]
  · rw [if_pos]
    norm_num [spec_norm_phase, qmod]

/-- C3 (corrected): the sawtooth output equals the claim's formula
`peak − (⌊phase⌋ / max_int_phase)·(peak−midpoint)` — with
`max_int_phase = ⌊period⌋−1` if `frac(period) ≤ frac(phase)` else
`⌊period⌋` — whenever the pre-advance phase and the period are nonnegative.
The code computes integer parts by truncation toward zero, which agrees
with the claim's floor exactly on nonnegative values; for a negative
configured phase the two disagree (see the counterexample). -/
theorem C3_sawtooth_formula (cos2pi : ℚ → ℚ) (s : Signal) (hs : s.m_src = .sawtooth)
    (h0 : 0 ≤ s.m_src_phase) (h1 : 0 ≤ s.m_src_period) :
    s.get_sample? cos2pi =
      some (spec_sawtooth_value s.m_src_v1 s.m_src_v2 s.m_src_period s.m_src_phase,
        s.advance) := by
  have hk : s.m_src.isPeriodic = true := by rw [hs]; rfl
  rw [get_sample?_of_periodic cos2pi s hk]
  have hval : s.waveValue cos2pi =
      spec_sawtooth_value s.m_src_v1 s.m_src_v2 s.m_src_period s.m_src_phase := by
    simp only [waveValue_sawtooth cos2pi s hs, spec_sawtooth_value,
      truncQ_of_nonneg h0, truncQ_of_nonneg h1]
  rw [hval]

/-- Witness for C3 at `source_sawtooth(0, 1, 10, 3)`. -/
theorem C3_sawtooth_formula_witness :
    (sawSigPos.m_src = .sawtooth ∧ (0 : ℚ) ≤ sawSigPos.m_src_phase
      ∧ (0 : ℚ) ≤ sawSigPos.m_src_period)
    ∧ sawSigPos.get_sample? czero =
        some (spec_sawtooth_value sawSigPos.m_src_v1 sawSigPos.m_src_v2
          sawSigPos.m_src_period sawSigPos.m_src_phase, sawSigPos.advance) :=
  ⟨⟨rfl, by norm_num [sawSigPos, sig0, Signal.source_sawtooth, Signal.update_phase],
    by norm_num [sawSigPos, sig0, Signal.source_sawtooth, Signal.update_phase]⟩,
   C3_sawtooth_formula czero sawSigPos rfl
     (by norm_num [sawSigPos, sig0, Signal.source_sawtooth, Signal.update_phase])
     (by norm_num [sawSigPos, sig0, Signal.source_sawtooth, Signal.update_phase])⟩

/-- Counterexample to C3 as stated: for `source_sawtooth(0, 1, 10, -5/2)`
the code returns `6/5` (truncation gives integer phase `-2`, fractional
part `-1/2`, so `max_int_phase = 10`), while the claim's floor-based
formula yields `4/3` (floor gives `-3`, fractional part `1/2`, so
`max_int_phase = 9`). -/
theorem C3_sawtooth_counterexample :
    (sawSigNeg.get_sample? czero).map Prod.fst = some (6 / 5)
    ∧ spec_sawtooth_value 0 1 10 (-(5 / 2)) = 4 / 3
    ∧ (6 / 5 : ℚ) ≠ 4 / 3 := by
  have hceil : ⌈(-(5 / 2) : ℚ)⌉ = -2 := by
    rw [Int.ceil_neg]
    norm_num
  refine ⟨?_, ?_, by norm_num⟩
  · rw [get_sample?_of_periodic czero sawSigNeg rfl, Option.map_some']
    rw [waveValue_sawtooth czero sawSigNeg rfl]
    norm_num [sawSigNeg, sig0, Signal.source_sawtooth, Signal.update_phase, truncQ, hceil]
  · norm_num [spec_sawtooth_value]

lemma option_map_pair_fst {α β : Type} (x : Option α) (t : β) :
    (x.map fun v => (v, t)).map Prod.fst = x := by
  cases x <;> rfl

lemma get_sample?_buffer (cos2pi : ℚ → ℚ) (t : Signal) (buf : List ℚ)
    (hk : t.m_src = .buffer) (hb : t.m_src_buf = some buf)
    (hl1 : 1 ≤ t.m_src_buf_len) (hl3 : t.m_src_buf_len < size_t_size) :
    t.get_sample? cos2pi =
      if t.m_src_buf_len ≤ t.m_src_i then
        (if t.m_src_buf_repeat then
          (buf.get? 0).map fun v => (v, { t with m_src_i := 1 })
        else (buf.get? (t.m_src_buf_len - 1)).map fun v => (v, t))
      else (buf.get? t.m_src_i).map fun v => (v, { t with m_src_i := t.m_src_i + 1 }) := by
  have hidx : (t.m_src_buf_len + (size_t_size - 1)) % size_t_size = t.m_src_buf_len - 1 := by
    unfold size_t_size at *
    omega
  simp only [Signal.get_sample?, hk, hb, hidx,
    eq_false (show SrcKind.buffer ≠ SrcKind.constant from fun h => nomatch h),
    eq_self_iff_true, ite_true, ite_false]

lemma steps?_buffer (cos2pi : ℚ → ℚ) (s : Signal) (data : List ℚ) (rep : Bool)
    (h1 : 1 ≤ data.length) (h2 : data.length < size_t_size) (n : ℕ) :
    Signal.steps? cos2pi n (s.source_buffer data data.length rep) =
      some { s.source_buffer data data.length rep with
        m_src_i := bufIndexAfter rep data.length n } := by
  induction n with
  | zero =>
      rw [show bufIndexAfter rep data.length 0 = 0 from by
        cases rep <;> simp [bufIndexAfter]]
      rfl
  | succ n ih =>
      rw [steps?_succ_back, ih]
      rw [show ∀ (t : Signal) (g : Signal → Option Signal), (some t).bind g = g t from
        fun _ _ => rfl]
      cases rep with
      | false =>
          by_cases hn : n < data.length
          · rw [show bufIndexAfter false data.length n = n from by
                unfold bufIndexAfter
                rw [if_neg (fun h => nomatch h), if_pos (by omega)],
              show bufIndexAfter false data.length (n + 1) = n + 1 from by
                unfold bufIndexAfter
                rw [if_neg (fun h => nomatch h), if_pos (by omega)]]
            rw [get_sample?_buffer cos2pi _ data rfl rfl h1 h2]
            dsimp only [Signal.source_buffer]
            rw [if_neg (by omega)]
            obtain ⟨v, hv⟩ : ∃ v, data.get? n = some v := ⟨data.get ⟨n, by omega⟩, by
              rw [List.get?_eq_getElem?]
              exact List.getElem?_eq_getElem (by omega)⟩
            rw [hv]
            rfl
          · rw [show bufIndexAfter false data.length n = data.length from by
                unfold bufIndexAfter
                rw [if_neg (fun h => nomatch h)]
                split_ifs <;> omega,
              show bufIndexAfter false data.length (n + 1) = data.length from by
                unfold bufIndexAfter
                rw [if_neg (fun h => nomatch h), if_neg (by omega)]]
            rw [get_sample?_buffer cos2pi _ data rfl rfl h1 h2]
            dsimp only [Signal.source_buffer]
            rw [if_pos (by omega), if_neg (fun h => nomatch h)]
            obtain ⟨v, hv⟩ : ∃ v, data.get? (data.length - 1) = some v :=
              ⟨data.get ⟨data.length - 1, by omega⟩, by
                rw [List.get?_eq_getElem?]
                exact List.getElem?_eq_getElem (by omega)⟩
            rw [hv]
            rfl
      | true =>
          have hmodlt : n % data.length < data.length := Nat.mod_lt n (by omega)
          rw [show bufIndexAfter true data.length (n + 1) = n % data.length + 1 from by
            unfold bufIndexAfter
            rw [if_pos rfl, if_neg (by omega), Nat.add_sub_cancel]]
          cases n with
          | zero =>
              rw [show bufIndexAfter true data.length 0 = 0 from by
                simp [bufIndexAfter]]
              rw [get_sample?_buffer cos2pi _ data rfl rfl h1 h2]
              dsimp only [Signal.source_buffer]
              rw [if_neg (by omega)]
              obtain ⟨v, hv⟩ : ∃ v, data.get? 0 = some v := ⟨data.get ⟨0, by omega⟩, by
                rw [List.get?_eq_getElem?]
                exact List.getElem?_eq_getElem (by omega)⟩
              rw [hv, Nat.zero_mod]
              rfl
          | succ m =>
              have hmodlt' : m % data.length < data.length := Nat.mod_lt m (by omega)
              rw [show bufIndexAfter true data.length (m + 1) = m % data.length + 1 from by
                unfold bufIndexAfter
                rw [if_pos rfl, if_neg (by omega), Nat.add_sub_cancel]]
              rw [get_sample?_buffer cos2pi _ data rfl rfl h1 h2]
              dsimp only [Signal.source_buffer]
              by_cases hk2 : m % data.length + 1 < data.length
              · have e1 : (m + 1) % data.length = m % data.length + 1 := by
                  rw [← Nat.mod_add_mod, Nat.mod_eq_of_lt hk2]
                rw [if_neg (by omega), e1]
                obtain ⟨v, hv⟩ : ∃ v, data.get? (m % data.length + 1) = some v :=
                  ⟨data.get ⟨m % data.length + 1, by omega⟩, by
                    rw [List.get?_eq_getElem?]
                    exact List.getElem?_eq_getElem (by omega)⟩
                rw [hv]
                rfl
              · have hkeq : m % data.length + 1 = data.length := by omega
                have e2 : (m + 1) % data.length = 0 := by
                  rw [← Nat.mod_add_mod, hkeq, Nat.mod_self]
                rw [if_pos (by omega), if_pos rfl, e2]
                obtain ⟨v, hv⟩ : ∃ v, data.get? 0 = some v := ⟨data.get ⟨0, by omega⟩, by
                  rw [List.get?_eq_getElem?]
                  exact List.getElem?_eq_getElem (by omega)⟩
                rw [hv]
                rfl

/-- C4 (confirmed): for a buffer source configured by
`source_buffer(data, length, repeat)` with `length = |data| ≥ 1` (a valid
`size_t` count), the `n`-th `get_sample` (0-indexed) returns
`data[n mod length]` when `repeat` is set — so the first `length` calls
return `data[0..length-1]` in order and the sequence then restarts at
`data[0]` — and `data[min n (length-1)]` otherwise: every call past the
end returns the final element forever, without advancing the read index. -/
theorem C4_buffer_semantics (cos2pi : ℚ → ℚ) (s : Signal) (data : List ℚ) (rep : Bool)
    (h1 : 1 ≤ data.length) (h2 : data.length < size_t_size) (n : ℕ) :
    Signal.sampleAt? cos2pi n (s.source_buffer data data.length rep) =
      data.get? (if rep then n % data.length else min n (data.length - 1)) := by
  unfold Signal.sampleAt?
  rw [steps?_buffer cos2pi s data rep h1 h2 n]
  rw [show ∀ (t : Signal) (g : Signal → Option ℚ), (some t).bind g = g t from
    fun _ _ => rfl]
  cases rep with
  | false =>
      rw [if_neg (fun h => nomatch h)]
      by_cases hn : n < data.length
      · rw [show bufIndexAfter false data.length n = n from by
            unfold bufIndexAfter
            rw [if_neg (fun h => nomatch h), if_pos (by omega)]]
        rw [get_sample?_buffer cos2pi _ data rfl rfl h1 h2]
        dsimp only [Signal.source_buffer]
        rw [if_neg (by omega), option_map_pair_fst]
        rw [min_eq_left (by omega : n ≤ data.length - 1)]
      · rw [show bufIndexAfter false data.length n = data.length from by
            unfold bufIndexAfter
            rw [if_neg (fun h => nomatch h)]
            split_ifs <;> omega]
        rw [get_sample?_buffer cos2pi _ data rfl rfl h1 h2]
        dsimp only [Signal.source_buffer]
        rw [if_pos (by omega), if_neg (fun h => nomatch h), option_map_pair_fst]
        rw [min_eq_right (by omega : data.length - 1 ≤ n)]
  | true =>
      rw [if_pos rfl]
      cases n with
      | zero =>
          rw [show bufIndexAfter true data.length 0 = 0 from by
            simp [bufIndexAfter]]
          rw [get_sample?_buffer cos2pi _ data rfl rfl h1 h2]
          dsimp only [Signal.source_buffer]
          rw [if_neg (by omega), option_map_pair_fst, Nat.zero_mod]
      | succ m =>
          have hmodlt' : m % data.length < data.length := Nat.mod_lt m (by omega)
          rw [show bufIndexAfter true data.length (m + 1) = m % data.length + 1 from by
            unfold bufIndexAfter
            rw [if_pos rfl, if_neg (by omega), Nat.add_sub_cancel]]
          rw [get_sample?_buffer cos2pi _ data rfl rfl h1 h2]
          dsimp only [Signal.source_buffer]
          by_cases hk2 : m % data.length + 1 < data.length
          · have e1 : (m + 1) % data.length = m % data.length + 1 := by
              rw [← Nat.mod_add_mod, Nat.mod_eq_of_lt hk2]
            rw [if_neg (by omega), option_map_pair_fst, e1]
          · have hkeq : m % data.length + 1 = data.length := by omega
            have e2 : (m + 1) % data.length = 0 := by
              rw [← Nat.mod_add_mod, hkeq, Nat.mod_self]
            rw [if_pos (by omega), if_pos rfl, option_map_pair_fst, e2]

/-- Witness for C4: the 4th call on `source_buffer([1,2,3], 3, false)`
returns the held final element 3. -/
theorem C4_buffer_semantics_witness :
    (1 ≤ ([1, 2, 3] : List ℚ).length ∧ ([1, 2, 3] : List ℚ).length < size_t_size)
    ∧ Signal.sampleAt? czero 3
        (sig0.source_buffer [1, 2, 3] ([1, 2, 3] : List ℚ).length false) = some 3 := by
  refine ⟨⟨by norm_num, by norm_num [size_t_size]⟩, ?_⟩
  rw [C4_buffer_semantics czero sig0 [1, 2, 3] false (by norm_num)
    (by norm_num [size_t_size]) 3]
  rfl

/-- C5 (confirmed): `put_sample(value)` always stores `value` in
`last_measurement`, for every destination kind (including `None` and a full
destination buffer); with a buffer destination of nonzero remaining
capacity it appends `value` through the destination pointer and decrements
the remaining capacity by 1, with exhausted capacity it leaves the buffer
state untouched; with a callback destination it invokes the sink with
`value`. -/
theorem C5_put_sample (s : Signal) (val : ℚ) :
    (s.put_sample val).m_latest_measurement = val
    ∧ (s.put_sample val).m_dest_written =
        (if s.m_dest = .buffer ∧ s.m_dest_buf_len ≠ 0
         then s.m_dest_written ++ [val] else s.m_dest_written)
    ∧ (s.put_sample val).m_dest_buf_len =
        (if s.m_dest = .buffer ∧ s.m_dest_buf_len ≠ 0
         then s.m_dest_buf_len - 1 else s.m_dest_buf_len)
    ∧ (s.put_sample val).m_dest_emitted =
        (if s.m_dest = .callback then s.m_dest_emitted ++ [val] else s.m_dest_emitted) := by
  unfold Signal.put_sample
  by_cases h1 : s.m_dest = .buffer
  · by_cases h2 : s.m_dest_buf_len ≠ 0
    · simp [h1, h2]
    · simp [h1, h2]
  · by_cases h3 : s.m_dest = .callback
    · simp [h1, h3]
    · simp [h1, h3]

/-- C6 (corrected): `get_sample` never fails for constant, callback and all
periodic sources, in every state; for a buffer source it never fails
provided the installed buffer is non-null and its declared length is
between 1 and the array's length (and is a valid `size_t` count), as any
honest `source_buffer` call guarantees.  With a zero-length buffer the code
indexes out of bounds (see the counterexample); the sawtooth division by a
zero `max_int_phase` is IEEE-non-trapping and still yields a float. -/
theorem C6_get_sample_total (cos2pi : ℚ → ℚ) (s : Signal)
    (hbuf : s.m_src = .buffer →
      ∃ buf, s.m_src_buf = some buf ∧ 1 ≤ s.m_src_buf_len
        ∧ s.m_src_buf_len ≤ buf.length ∧ s.m_src_buf_len < size_t_size) :
    (s.get_sample? cos2pi).isSome = true := by
  by_cases hk : s.m_src = .buffer
  · obtain ⟨buf, hb, hl1, hl2, hl3⟩ := hbuf hk
    rw [get_sample?_buffer cos2pi s buf hk hb hl1 hl3]
    split_ifs with h1 h2
    · rw [show buf.get? 0 = some (buf.get ⟨0, by omega⟩) from by
        rw [List.get?_eq_getElem?]
        exact List.getElem?_eq_getElem (by omega)]
      rfl
    · rw [show buf.get? (s.m_src_buf_len - 1) =
          some (buf.get ⟨s.m_src_buf_len - 1, by omega⟩) from by
        rw [List.get?_eq_getElem?]
        exact List.getElem?_eq_getElem (by omega)]
      rfl
    · rw [show buf.get? s.m_src_i = some (buf.get ⟨s.m_src_i, by omega⟩) from by
        rw [List.get?_eq_getElem?]
        exact List.getElem?_eq_getElem (by omega)]
      rfl
  · cases hs : s.m_src <;> simp_all [Signal.get_sample?, SrcKind.isPeriodic]

/-- Witness for C6 at the valid buffer configuration
`source_buffer([5], 1, true)`. -/
theorem C6_get_sample_total_witness :
    (bufSigOne.m_src = .buffer →
      ∃ buf, bufSigOne.m_src_buf = some buf ∧ 1 ≤ bufSigOne.m_src_buf_len
        ∧ bufSigOne.m_src_buf_len ≤ buf.length ∧ bufSigOne.m_src_buf_len < size_t_size)
    ∧ (bufSigOne.get_sample? czero).isSome = true :=
  ⟨fun _ => ⟨[5], rfl, by decide, by decide, by decide⟩,
   C6_get_sample_total czero bufSigOne
     (fun _ => ⟨[5], rfl, by decide, by decide, by decide⟩)⟩

/-- Counterexample to C6 as stated: with a zero-length buffer source
(`source_buffer([], 0, false)`), `get_sample` reads
`m_src_buf[m_src_buf_len - 1]`, i.e. index `2^64 − 1` after `size_t`
underflow — an out-of-bounds access (modelled as `none`), not a returned
float. -/
theorem C6_zero_len_counterexample :
    emptyBufSig.get_sample? czero = Option.none := rfl

/-- C7 (corrected): for a triangle source with `midpoint ≤ peak` whose
pre-advance phase lies in `(-period, period)` — so the `norm_phase` used by
the formula lies in `[0, 1)` — the returned value
`midpoint + |1 − 2·norm_phase|·(peak−midpoint)` always lies INSIDE the
interval `[midpoint, peak]`; the claimed excursion beyond the interval does
not exist for any `norm_phase ∈ [0, 1)` (it requires an unwrapped
out-of-range starting phase, whose `norm_phase` falls outside `[0, 1)`). -/
theorem C7_triangle_range (cos2pi : ℚ → ℚ) (s : Signal) (hs : s.m_src = .triangle)
    (hv : s.m_src_v1 ≤ s.m_src_v2) (hp : 0 < s.m_src_period)
    (hlo : -s.m_src_period < s.m_src_phase) (hhi : s.m_src_phase < s.m_src_period) :
    s.get_sample? cos2pi = some (s.waveValue cos2pi, s.advance)
    ∧ s.m_src_v1 ≤ s.waveValue cos2pi ∧ s.waveValue cos2pi ≤ s.m_src_v2 := by
  have hk : s.m_src.isPeriodic = true := by rw [hs]; rfl
  obtain ⟨hn0, hn1⟩ := norm_phase_mem_Ico s hp hlo hhi
  refine ⟨get_sample?_of_periodic cos2pi s hk, ?_, ?_⟩
  · rw [waveValue_triangle cos2pi s hs]
    nlinarith [abs_nonneg (1 - s.norm_phase * 2)]
  · rw [waveValue_triangle cos2pi s hs]
    have habs : |1 - s.norm_phase * 2| ≤ 1 := by
      rw [abs_le]
      constructor <;> nlinarith
    nlinarith [abs_nonneg (1 - s.norm_phase * 2)]

/-- Witness for C7 at `source_triangle(0, 1, 10, 3)`. -/
theorem C7_triangle_range_witness :
    (triSig10.m_src = .triangle ∧ triSig10.m_src_v1 ≤ triSig10.m_src_v2
      ∧ (0 : ℚ) < triSig10.m_src_period
      ∧ -triSig10.m_src_period < triSig10.m_src_phase
      ∧ triSig10.m_src_phase < triSig10.m_src_period)
    ∧ triSig10.m_src_v1 ≤ triSig10.waveValue czero
    ∧ triSig10.waveValue czero ≤ triSig10.m_src_v2 :=
  ⟨⟨rfl, by norm_num [triSig10, sig0, Signal.source_triangle, Signal.update_phase],
    by norm_num [triSig10, sig0, Signal.source_triangle, Signal.update_phase],
    by norm_num [triSig10, sig0, Signal.source_triangle, Signal.update_phase],
    by norm_num [triSig10, sig0, Signal.source_triangle, Signal.update_phase]⟩,
   (C7_triangle_range czero triSig10 rfl
     (by norm_num [triSig10, sig0, Signal.source_triangle, Signal.update_phase])
     (by norm_num [triSig10, sig0, Signal.source_triangle, Signal.update_phase])
     (by norm_num [triSig10, sig0, Signal.source_triangle, Signal.update_phase])
     (by norm_num [triSig10, sig0, Signal.source_triangle, Signal.update_phase])).2⟩

/-- Counterexample to C7 as stated (refutation of the claimed existential):
for the triangle source `source_triangle(0, 1, 1, ph)` — whose first-call
`norm_phase` is `ph` itself — no phase in `[0, 1)` makes `get_sample`
return a value outside `[midpoint, peak] = [0, 1]`. -/
theorem C7_no_excursion_counterexample :
    ¬ ∃ ph : ℚ, 0 ≤ ph ∧ ph < 1 ∧
      ∃ v t, (triSig ph).get_sample? czero = some (v, t) ∧ (v < 0 ∨ 1 < v) := by
  rintro ⟨ph, h0, h1, v, t, heq, hout⟩
  rw [get_sample?_of_periodic czero (triSig ph) rfl] at heq
  have hv : (triSig ph).waveValue czero = v :=
    congrArg Prod.fst (Option.some.inj heq)
  have hnorm : (triSig ph).norm_phase = ph := by
    show (if ph / 1 < 0 then ph / 1 + 1 else ph / 1) = ph
    rw [div_one, if_neg (not_lt.mpr h0)]
  rw [waveValue_triangle czero (triSig ph) rfl, hnorm] at hv
  have hv' : (0 : ℚ) + |1 - ph * 2| * (1 - 0) = v := hv
  rcases hout with hlt | hgt
  · nlinarith [abs_nonneg (1 - ph * 2)]
  · have habs : |1 - ph * 2| ≤ 1 := by
      rw [abs_le]
      constructor <;> nlinarith
    nlinarith

/-- C8 (confirmed): `measure_buffer(data, capacity)` and
`measure_callback(fn)` set only the destination kind and destination state;
`last_measurement` and every piece of source state (kind, waveform
parameters, period, phase, buffer view, declared length, repeat flag,
running index, source callback) are unchanged. -/
theorem C8_measure_frame (s : Signal) (cap : ℕ) :
    ((s.measure_buffer cap).m_latest_measurement = s.m_latest_measurement
      ∧ (s.measure_buffer cap).m_src = s.m_src
      ∧ (s.measure_buffer cap).m_src_v1 = s.m_src_v1
      ∧ (s.measure_buffer cap).m_src_v2 = s.m_src_v2
      ∧ (s.measure_buffer cap).m_src_duty = s.m_src_duty
      ∧ (s.measure_buffer cap).m_src_period = s.m_src_period
      ∧ (s.measure_buffer cap).m_src_phase = s.m_src_phase
      ∧ (s.measure_buffer cap).m_src_buf = s.m_src_buf
      ∧ (s.measure_buffer cap).m_src_buf_len = s.m_src_buf_len
      ∧ (s.measure_buffer cap).m_src_buf_repeat = s.m_src_buf_repeat
      ∧ (s.measure_buffer cap).m_src_i = s.m_src_i
      ∧ (s.measure_buffer cap).m_src_callback = s.m_src_callback
      ∧ (s.measure_buffer cap).m_dest = .buffer
      ∧ (s.measure_buffer cap).m_dest_buf_len = cap)
    ∧ (s.measure_callback.m_latest_measurement = s.m_latest_measurement
      ∧ s.measure_callback.m_src = s.m_src
      ∧ s.measure_callback.m_src_v1 = s.m_src_v1
      ∧ s.measure_callback.m_src_v2 = s.m_src_v2
      ∧ s.measure_callback.m_src_duty = s.m_src_duty
      ∧ s.measure_callback.m_src_period = s.m_src_period
      ∧ s.measure_callback.m_src_phase = s.m_src_phase
      ∧ s.measure_callback.m_src_buf = s.m_src_buf
      ∧ s.measure_callback.m_src_buf_len = s.m_src_buf_len
      ∧ s.measure_callback.m_src_buf_repeat = s.m_src_buf_repeat
      ∧ s.measure_callback.m_src_i = s.m_src_i
      ∧ s.measure_callback.m_src_callback = s.m_src_callback
      ∧ s.measure_callback.m_dest = .callback
      ∧ s.measure_callback.m_dest_buf_len = s.m_dest_buf_len) :=
  ⟨⟨rfl, rfl, rfl, rfl, rfl, rfl, rfl, rfl, rfl, rfl, rfl, rfl, rfl, rfl⟩,
   ⟨rfl, rfl, rfl, rfl, rfl, rfl, rfl, rfl, rfl, rfl, rfl, rfl, rfl, rfl⟩⟩

/-- Counterexample to C9 as stated: after `source_buffer([1,2,3], 3, false)`
installs the caller's array, destroying the Signal executes
`delete[] m_src_buf` — the destructor frees the caller-provided storage. -/
theorem C9_ownership_counterexample :
    (sig0.source_buffer [1, 2, 3] 3 false).dtor_frees_src_buf = true := rfl

/-- C9 (corrected): no Signal operation other than destruction frees the
caller's source buffer or disturbs the installed view — `put_sample`,
`measure_buffer`, `measure_callback`, `source_constant` and
`source_callback` leave `m_src_buf` unchanged, `source_buffer` stores
exactly the caller's array, and a Signal that never had a source buffer
installed frees nothing — but the destructor runs
`delete[] m_src_buf` whenever a source buffer is installed, so the Signal
does take ownership of (and free) that caller-provided storage at
destruction.  The destination buffer is never freed. -/
theorem C9_ownership (s : Signal) (buf : List ℚ) (len : ℕ) (rep : Bool)
    (val v1 : ℚ) (cap : ℕ) (fn : ℕ → ℚ) :
    (s.source_buffer buf len rep).dtor_frees_src_buf = true
    ∧ sig0.dtor_frees_src_buf = false
    ∧ (s.put_sample val).m_src_buf = s.m_src_buf
    ∧ (s.measure_buffer cap).m_src_buf = s.m_src_buf
    ∧ s.measure_callback.m_src_buf = s.m_src_buf
    ∧ (s.source_constant v1).m_src_buf = s.m_src_buf
    ∧ (s.source_callback fn).m_src_buf = s.m_src_buf
    ∧ (s.source_buffer buf len rep).m_src_buf = some buf := by
  refine ⟨rfl, rfl, ?_, rfl, rfl, rfl, rfl, rfl⟩
  simp only [Signal.put_sample]
  split_ifs <;> rfl

end Smu
